import Mathlib

/-!
Verification development for the Chaski-Confluent node runtime
(dunderlab/python-chaski).

The repository snapshot ships only the documentation notebooks and the
package metadata; the implementation modules (chaski/node.py,
chaski/streamer.py, chaski/remote.py, chaski/ca.py) are not present.
Every definition below is therefore a shallow model reconstructed from
the specification text (spec sections 3, 4.1, 4.4, 4.5, 4.6, 4.7, 6, 7,
8) and from the behaviour recorded in the shipped notebooks.  Byte
strings are lists of naturals, text is a list of characters, and all
stateful behaviour is explicit state passing.
-/

namespace Chaski

/-! ## Definitions: message codec (spec section 4.1)

Frames are a 4-byte big-endian length followed by the serialized
envelope; the serializer is pluggable; frames longer than 64 MiB are a
protocol error. -/

/-- Modelled from the spec: the envelope data model of section 3 of the
specification (the implementation module chaski/node.py that declares
the envelope dataclass is missing from the snapshot).  The payload type
is a parameter, since payload serialization is pluggable. -/
structure Envelope (α : Type) where
  command : List Char
  envId : Nat
  timestamp : Nat
  origin : List Char
  ttl : Nat
  visited : List (List Char)
  topic : Option (List Char)
  payload : α
deriving DecidableEq

/-- Maximum frame length accepted by the codec: 64 MiB. -/
def maxFrameSize : Nat := 67108864

/-- Big-endian 4-byte encoding of a natural number below 2^32. -/
def u32be (n : Nat) : List Nat :=
  [n / 16777216 % 256, n / 65536 % 256, n / 256 % 256, n % 256]

/-- Read a big-endian 4-byte length from the head of a byte stream,
returning the value and the remaining bytes. -/
def readU32be : List Nat → Option (Nat × List Nat)
  | a :: b :: c :: d :: rest => some (((a * 256 + b) * 256 + c) * 256 + d, rest)
  | _ => none

/-- Errors the codec can signal (spec section 7, protocol errors). -/
inductive CodecError
  | lengthOverLimit
  | truncated
  | badPayload
deriving DecidableEq

/-- Modelled from the spec: frame encoding of section 4.1 of the
specification, `[u32 big-endian length][serialized envelope]` (the
implementation module chaski/node.py is missing from the snapshot).
The serializer of the envelope is pluggable. -/
def encodeFrame {α : Type} (ser : α → List Nat) (e : α) : List Nat :=
  u32be (ser e).length ++ ser e

/-- Modelled from the spec: frame decoding of section 4.1 of the
specification (the implementation module chaski/node.py is missing from
the snapshot).  Reads the length, rejects frames over `maxFrameSize`,
takes that many bytes and deserializes them. -/
def decodeFrame {α : Type} (deser : List Nat → Option α) (bs : List Nat) :
    Except CodecError α :=
  match readU32be bs with
  | none => .error .truncated
  | some (n, rest) =>
    if maxFrameSize < n then .error .lengthOverLimit
    else if rest.length < n then .error .truncated
    else
      match deser (rest.take n) with
      | some e => .ok e
      | none => .error .badPayload

/-- A concrete envelope used by witnesses: payload 5, empty metadata. -/
def sampleEnvelope : Envelope Nat :=
  ⟨[], 0, 0, [], 0, [], none, 5⟩

/-- A tiny concrete serializer for witnesses: keep only the payload. -/
def sampleSer (e : Envelope Nat) : List Nat := [e.payload]

/-- The matching concrete deserializer for witnesses. -/
def sampleDeser : List Nat → Option (Envelope Nat)
  | [x] => some ⟨[], 0, 0, [], 0, [], none, x⟩
  | _ => none

/-! ## Definitions: addresses (spec sections 3 and 6)

Canonical form `<class>@<host>:<port>`. -/

/-- The closed set of node classes appearing in addresses. -/
inductive NodeClass
  | chaskiNode
  | chaskiStreamer
  | chaskiRemote
  | chaskiCA
deriving DecidableEq

/-- The character rendering of each node class name. -/
def classChars : NodeClass → List Char
  | .chaskiNode => ['C', 'h', 'a', 's', 'k', 'i', 'N', 'o', 'd', 'e']
  | .chaskiStreamer => ['C', 'h', 'a', 's', 'k', 'i', 'S', 't', 'r', 'e', 'a', 'm', 'e', 'r']
  | .chaskiRemote => ['C', 'h', 'a', 's', 'k', 'i', 'R', 'e', 'm', 'o', 't', 'e']
  | .chaskiCA => ['C', 'h', 'a', 's', 'k', 'i', 'C', 'A']

/-- Decimal digit to character. -/
def digChar (d : Nat) : Char :=
  if d = 0 then '0' else if d = 1 then '1' else if d = 2 then '2'
  else if d = 3 then '3' else if d = 4 then '4' else if d = 5 then '5'
  else if d = 6 then '6' else if d = 7 then '7' else if d = 8 then '8'
  else if d = 9 then '9' else '?'

/-- Character to decimal digit value. -/
def digVal (c : Char) : Nat :=
  if c = '0' then 0 else if c = '1' then 1 else if c = '2' then 2
  else if c = '3' then 3 else if c = '4' then 4 else if c = '5' then 5
  else if c = '6' then 6 else if c = '7' then 7 else if c = '8' then 8
  else if c = '9' then 9 else 0

/-- Decimal rendering of a natural number (empty for zero, as the
little-endian digit list of `Nat.digits` is empty for zero). -/
def natToChars (n : Nat) : List Char :=
  ((Nat.digits 10 n).map digChar).reverse

/-- Decimal parsing of a character list. -/
def charsToNat (s : List Char) : Nat :=
  Nat.ofDigits 10 (s.reverse.map digVal)

/-- Split a character list at the first occurrence of `c`, returning
the part before and the part after. -/
def splitFirst (c : Char) : List Char → Option (List Char × List Char)
  | [] => none
  | x :: xs =>
    if x = c then some ([], xs)
    else (splitFirst c xs).map fun p => (x :: p.1, p.2)

/-- Split a character list at the last occurrence of `c`. -/
def splitLast (c : Char) (s : List Char) : Option (List Char × List Char) :=
  (splitFirst c s.reverse).map fun p => (p.2.reverse, p.1.reverse)

/-- Recognize a class name, returning the corresponding class. -/
def classOfChars (s : List Char) : Option NodeClass :=
  if s = classChars .chaskiNode then some .chaskiNode
  else if s = classChars .chaskiStreamer then some .chaskiStreamer
  else if s = classChars .chaskiRemote then some .chaskiRemote
  else if s = classChars .chaskiCA then some .chaskiCA
  else none

/-- Modelled from the spec: the address formatter of sections 3 and 6
of the specification, `<class>@<host>:<port>` (the implementation
property ChaskiStreamer.address lives in the missing chaski modules). -/
def formatAddress (cls : NodeClass) (host : List Char) (port : Nat) : List Char :=
  classChars cls ++ '@' :: (host ++ ':' :: natToChars port)

/-- Modelled from the spec: the address parser (total, Option-valued):
split at the first `@`, split the remainder at the last `:`, recognize
the class name and parse the port in decimal. -/
def parseAddress (s : List Char) : Option (NodeClass × List Char × Nat) :=
  match splitFirst '@' s with
  | none => none
  | some (clsStr, rest) =>
    match splitLast ':' rest with
    | none => none
    | some (host, portStr) =>
      match classOfChars clsStr with
      | none => none
      | some cls => some (cls, host, charsToNat portStr)

/-! ## Definitions: discovery flooding (spec section 4.5)

Nodes are naturals, the static topology is a neighbour function.  A
discovery envelope carries a ttl and an ordered visited list; its origin
address and envelope id are fixed for a whole flood, so the events only
record depth (number of wire transmissions from the initiator), the
processing node, and the visited list the envelope arrived with. -/

/-- Modelled from the spec: the forwarding rules of section 4.5 of the
specification (the discovery engine in the missing chaski/node.py).  A
receiver already in `visited` drops the envelope; otherwise it processes
it, and when the ttl is positive it appends itself to `visited`,
decrements the ttl and forwards to all its edges not already in the new
visited list.  Returns every processing event `(depth, node, visited on
arrival)` caused by delivering the envelope to node `R` at depth `d`. -/
def flood (g : Nat → List Nat) : Nat → List Nat → Nat → Nat → List (Nat × Nat × List Nat)
  | 0, v, R, d => if R ∈ v then [] else [(d, R, v)]
  | t + 1, v, R, d =>
    if R ∈ v then []
    else
      (d, R, v) ::
        ((g R).filter (fun a => ¬ a ∈ v ++ [R])).flatMap
          (fun a => flood g t (v ++ [R]) a (d + 1))

/-- Modelled from the spec: a node initiates discovery by emitting the
envelope with ttl `k` and itself as the sole visited entry to every one
of its edges; each emission is one wire transmission (depth 1). -/
def initiateDiscovery (g : Nat → List Nat) (A : Nat) (k : Nat) :
    List (Nat × Nat × List Nat) :=
  (g A).flatMap (fun b => flood g k [A] b 1)

/-- A diamond topology: 0 → 1, 1 → {2, 3}, 2 → 4, 3 → 4.  Two distinct
forwarding paths from node 0 reach node 4. -/
def gDiamond : Nat → List Nat :=
  fun n =>
    if n = 0 then [1]
    else if n = 1 then [2, 3]
    else if n = 2 then [4]
    else if n = 3 then [4]
    else []

/-! ## Definitions: edge set maintenance (spec sections 3, 4.4, 7)

The node owns a set of edges keyed by peer address; duplicate inbound
connections from a known address are closed, and once `max_connections`
edges exist a new inbound connection is refused with a `too_many_edges`
reply and its socket is closed, leaving the edge set untouched. -/

/-- Outcome of offering one inbound connection to a node. -/
inductive InboundResult
  | accepted
  | duplicateClosed
  | tooManyEdges
deriving DecidableEq

/-- Whether a given inbound outcome closes the newly offered socket. -/
def closesNewSocket : InboundResult → Bool
  | .accepted => false
  | .duplicateClosed => true
  | .tooManyEdges => true

/-- Modelled from the spec: inbound connection handling of sections 3,
4.4 and 7 of the specification (the node core in the missing
chaski/node.py).  A duplicate address is closed rather than added; at
the `max_connections` cap the node replies `too_many_edges` and closes
the socket; otherwise the edge is added. -/
def handleInbound (maxConn : Nat) (edges : List (List Char)) (a : List Char) :
    List (List Char) × InboundResult :=
  if a ∈ edges then (edges, .duplicateClosed)
  else if maxConn ≤ edges.length then (edges, .tooManyEdges)
  else (edges ++ [a], .accepted)

/-- The operations that mutate the edge set over a node's lifetime. -/
inductive EdgeOp
  | inbound (a : List Char)
  | outbound (a : List Char)
  | disconnect (a : List Char)

/-- Modelled from the spec: one edge-set transition (the node core in
the missing chaski/node.py).  Outbound connects also refuse duplicates
and respect the cap; a disconnect erases the edge. -/
def applyEdgeOp (maxConn : Nat) (edges : List (List Char)) : EdgeOp → List (List Char)
  | .inbound a => (handleInbound maxConn edges a).1
  | .outbound a =>
    if a ∈ edges ∨ maxConn ≤ edges.length then edges else edges ++ [a]
  | .disconnect a => edges.erase a

/-- Run a sequence of edge operations from the empty edge set. -/
def runEdgeOps (maxConn : Nat) (ops : List EdgeOp) : List (List Char) :=
  ops.foldl (applyEdgeOp maxConn) []

/-! ## Definitions: delivery queue (spec section 4.6)

The bounded delivery queue drops the oldest message on overflow and
counts overflows. -/

/-- The receive side of the streaming plane: the bounded delivery queue
and the overflow counter. -/
structure StreamState (M : Type) where
  queue : List M
  overflow : Nat
deriving DecidableEq

/-- Modelled from the spec: appending one locally subscribed
`topic_message` to the bounded delivery queue (section 4.6 of the
specification; the streaming plane in the missing chaski/streamer.py).
A full queue drops its oldest entry and increments the overflow
counter; the node keeps running either way (the transition is total). -/
def pushMessage {M : Type} (cap : Nat) (s : StreamState M) (m : M) : StreamState M :=
  if s.queue.length < cap then ⟨s.queue ++ [m], s.overflow⟩
  else ⟨s.queue.drop 1 ++ [m], s.overflow + 1⟩

/-- Deliver a list of messages in order into the queue. -/
def pushAll {M : Type} (cap : Nat) (s : StreamState M) (ms : List M) : StreamState M :=
  ms.foldl (pushMessage cap) s

/-! ## Definitions: chunked file transfer (spec section 4.7)

A file is split into fixed-size chunks; the receiver appends chunks in
index order into `<filename>.part` and renames on completion.  A
leftover `.part` holding the first `n` chunks makes the receiver answer
`file_resume_from n`, and the sender resumes from chunk `n`. -/

/-- Accumulate chunks of size `c` from the byte list, carrying the
current chunk reversed.  Structural recursion on the input bytes. -/
def chunksAux (c : Nat) : List Nat → List Nat → List (List Nat)
  | cur, [] => if cur = [] then [] else [cur.reverse]
  | cur, x :: xs =>
    if cur.length + 1 = c then (x :: cur).reverse :: chunksAux c [] xs
    else chunksAux c (x :: cur) xs

/-- Modelled from the spec: the sender-side splitting of a file into
chunks of `chunk_size` bytes (section 4.7 of the specification; the
file-transfer code in the missing chaski/streamer.py). -/
def chunksOf (c : Nat) (f : List Nat) : List (List Nat) :=
  chunksAux c [] f

/-- Modelled from the spec: receiver-side reassembly, appending the
received chunks in index order. -/
def reassemble (chunks : List (List Nat)) : List Nat :=
  chunks.flatten

/-- Modelled from the spec: the resumed transfer of section 4.7.  The
receiver holds `partBytes` on disk, answers `file_resume_from` with the
next expected index `n`, and the sender sends the chunks from index `n`
on; the final file is the partial bytes followed by the resumed
chunks. -/
def resumedFile (c n : Nat) (f partBytes : List Nat) : List Nat :=
  partBytes ++ reassemble ((chunksOf c f).drop n)

/-! ## Definitions: per-edge ordering (spec sections 4.6 and 5)

A message is a pair (edge id, per-edge sequence number).  Envelope
writes on one edge arrive in write order; losses (queue overflow) make
the delivered list a sublist of the pushed list.  Across edges the
dispatcher may interleave deliveries arbitrarily. -/

/-- Modelled from the spec: per-edge delivery only loses messages, never
reorders them — the delivered list is a sublist of the pushed list
(sections 4.6 and 5 of the specification; the edge read loop in the
missing chaski/node.py). -/
def deliveredFrom (pushed delivered : List (Nat × Nat)) : Prop :=
  delivered.Sublist pushed

/-- A message list is in push order when the per-edge sequence numbers
strictly increase. -/
def orderedBySeq (l : List (Nat × Nat)) : Prop :=
  l.Pairwise (fun a b => a.2 < b.2)

/-- Modelled from the spec: the admissible cross-edge delivery
schedules are all interleavings of the two edges' streams (section 5:
there is no global ordering across edges). -/
def interleavings : List (Nat × Nat) → List (Nat × Nat) → List (List (Nat × Nat))
  | [], ys => [ys]
  | x :: xs, [] => [x :: xs]
  | x :: xs, y :: ys =>
    ((interleavings xs (y :: ys)).map (fun l => x :: l)) ++
      ((interleavings (x :: xs) ys).map (fun l => y :: l))
termination_by a b => a.length + b.length

/-! ## Definitions: starred connect addresses (spec section 6)

A leading `*` on an address in a user-facing connect call requests a
paired connection; pairing is then established on the overlapping
topics. -/

/-- Modelled from the spec: section 6 of the specification — a leading
`*` in a connect address marks "paired connection requested" and is
stripped before the address is used (ChaskiStreamer.connect in the
missing chaski/streamer.py).  Returns the paired flag and the bare
address. -/
def parseConnect (s : List Char) : Bool × List Char :=
  match s with
  | '*' :: rest => (true, rest)
  | _ => (false, s)

/-- Modelled from the spec: a paired connect establishes pairing on the
topics both sides subscribe to; a plain connect requests none. -/
def pairedTopics (pairedFlag : Bool) (mySubs peerSubs : List (List Char)) :
    List (List Char) :=
  if pairedFlag then mySubs.filter (fun t => t ∈ peerSubs) else []

/-- Modelled from the spec: the observable outcome of a user-facing
connect call — whether pairing was requested, and which topics end up
paired. -/
def connectRequest (s : List Char) (mySubs peerSubs : List (List Char)) :
    Bool × List (List Char) :=
  ((parseConnect s).1, pairedTopics (parseConnect s).1 mySubs peerSubs)

/-! ## Definitions: remote proxy module lookup (spec sections 4.9 and 9,
notebook part_003)

A ChaskiRemote server started with an explicit available-modules list
serves proxies only for those modules; a missing module is reported by
a log line and no proxy is returned, without raising. -/

/-- A ChaskiRemote server configured with its available modules. -/
structure RemoteServer where
  available : List (List Char)

/-- A proxy bound to a module name. -/
structure ChaskiProxy where
  moduleName : List Char
deriving DecidableEq

/-- The log line emitted when a module is not served, as recorded in
the notebook: `Module <m> not found in the conected edges`. -/
def moduleNotFoundMsg (m : List Char) : List Char :=
  ('M' :: 'o' :: 'd' :: 'u' :: 'l' :: 'e' :: ' ' :: m) ++
    [' ', 'n', 'o', 't', ' ', 'f', 'o', 'u', 'n', 'd', ' ', 'i', 'n', ' ',
     't', 'h', 'e', ' ', 'c', 'o', 'n', 'e', 'c', 't', 'e', 'd', ' ',
     'e', 'd', 'g', 'e', 's']

/-- Modelled from the spec and the notebook outputs of part_003: the
client-facing proxy lookup (ChaskiRemote.proxy in the missing
chaski/remote.py).  A served module yields a ChaskiProxy bound to it and
no log line; an unserved module yields no proxy and the not-found log
line, and the function is total (no exception). -/
def proxyLookup (srv : RemoteServer) (m : List Char) :
    Option ChaskiProxy × Option (List Char) :=
  if m ∈ srv.available then (some ⟨m⟩, none)
  else (none, some (moduleNotFoundMsg m))

/-! ## Helper lemmas -/

theorem readU32be_u32be (n : Nat) (rest : List Nat) (h : n < 4294967296) :
    readU32be (u32be n ++ rest) = some (n, rest) := by
  simp only [u32be, readU32be, List.cons_append, List.nil_append]
  congr 1
  congr 1
  omega

theorem digVal_digChar {d : Nat} (h : d < 10) : digVal (digChar d) = d := by
  interval_cases d <;> decide

theorem digChar_ne_colon {d : Nat} (h : d < 10) : digChar d ≠ ':' := by
  interval_cases d <;> decide

theorem charsToNat_natToChars (n : Nat) : charsToNat (natToChars n) = n := by
  unfold charsToNat natToChars
  rw [List.reverse_reverse, List.map_map]
  have hmap : (Nat.digits 10 n).map (digVal ∘ digChar) = Nat.digits 10 n := by
    conv_rhs => rw [← List.map_id (Nat.digits 10 n)]
    apply List.map_congr_left
    intro d hd
    exact digVal_digChar (Nat.digits_lt_base (by norm_num) hd)
  rw [hmap, Nat.ofDigits_digits]

theorem colon_not_mem_natToChars (n : Nat) : ':' ∉ natToChars n := by
  unfold natToChars
  rw [List.mem_reverse, List.mem_map]
  rintro ⟨d, hd, hEq⟩
  exact digChar_ne_colon (Nat.digits_lt_base (by norm_num) hd) hEq

theorem splitFirst_append {c : Char} {a : List Char} (b : List Char) (h : c ∉ a) :
    splitFirst c (a ++ c :: b) = some (a, b) := by
  induction a with
  | nil => simp [splitFirst]
  | cons x xs ih =>
    have hx : x ≠ c := fun hEq => h (hEq ▸ List.mem_cons_self x xs)
    have hxs : c ∉ xs := fun hm => h (List.mem_cons_of_mem x hm)
    simp [splitFirst, hx, ih hxs]

theorem splitLast_append {c : Char} (a : List Char) {b : List Char} (h : c ∉ b) :
    splitLast c (a ++ c :: b) = some (a, b) := by
  unfold splitLast
  have hrev : (a ++ c :: b).reverse = b.reverse ++ c :: a.reverse := by
    simp
  rw [hrev, splitFirst_append a.reverse (by simpa using h)]
  simp

theorem at_not_mem_classChars (cls : NodeClass) : '@' ∉ classChars cls := by
  cases cls <;> decide

theorem classOfChars_classChars (cls : NodeClass) :
    classOfChars (classChars cls) = some cls := by
  cases cls <;> decide

theorem parseAddress_formatAddress (cls : NodeClass) (host : List Char) (port : Nat) :
    parseAddress (formatAddress cls host port) = some (cls, host, port) := by
  unfold parseAddress formatAddress
  rw [splitFirst_append _ (at_not_mem_classChars cls)]
  simp only [splitLast_append host (colon_not_mem_natToChars port),
    classOfChars_classChars, charsToNat_natToChars]

/-! ## Claim theorems -/

/-- C1: for every envelope E whose payload the configured serializer
round-trips, decoding the encoded frame yields E again — and since
`decodeFrame` is a function of the received bytes and the shared
deserializer only, an envelope framed by one node is decodable by any
other node configured with the same serializer pair. -/
theorem frame_roundtrip {α : Type} (ser : α → List Nat)
    (deser : List Nat → Option α) (e : α)
    (hlen : (ser e).length ≤ maxFrameSize)
    (hser : deser (ser e) = some e) :
    decodeFrame deser (encodeFrame ser e) = .ok e := by
  unfold decodeFrame encodeFrame
  rw [readU32be_u32be _ _ (by unfold maxFrameSize at hlen; omega)]
  simp only [Nat.not_lt.mpr hlen, if_false, Nat.lt_irrefl, List.take_length, hser]

/-- C1 witness: the concrete sample envelope with the concrete sample
serializer round-trips through the frame codec. -/
theorem frame_roundtrip_witness :
    decodeFrame sampleDeser (encodeFrame sampleSer sampleEnvelope) = .ok sampleEnvelope :=
  frame_roundtrip sampleSer sampleDeser sampleEnvelope (by decide) (by decide)

/-- C2: for every class, host string and port, parsing the formatted
address `<class>@<host>:<port>` returns exactly the class, host and
port; both functions are total (the parser is Option-valued on all
strings), and address equality is string equality: two formatted
addresses are equal as strings exactly when their components are
equal. -/
theorem address_roundtrip :
    (∀ (cls : NodeClass) (host : List Char) (port : Nat),
        parseAddress (formatAddress cls host port) = some (cls, host, port)) ∧
      (∀ (c1 c2 : NodeClass) (h1 h2 : List Char) (p1 p2 : Nat),
        formatAddress c1 h1 p1 = formatAddress c2 h2 p2 ↔
          (c1 = c2 ∧ h1 = h2 ∧ p1 = p2)) := by
  refine ⟨parseAddress_formatAddress, fun c1 c2 h1 h2 p1 p2 => ⟨fun hEq => ?_, ?_⟩⟩
  · have := parseAddress_formatAddress c1 h1 p1
    rw [hEq, parseAddress_formatAddress c2 h2 p2] at this
    simp_all
  · rintro ⟨rfl, rfl, rfl⟩
    rfl

theorem flood_mem_invariant (g : Nat → List Nat) :
    ∀ (t : Nat) (v : List Nat) (R d : Nat) (ev : Nat × Nat × List Nat),
      ev ∈ flood g t v R d →
      ev.1 ≤ d + t ∧ (v.Nodup → ev.2.2.Nodup ∧ ev.2.1 ∉ ev.2.2) := by
  intro t
  induction t with
  | zero =>
    intro v R d ev hev
    simp only [flood] at hev
    split at hev
    · simp at hev
    · next hR =>
      rcases List.mem_singleton.mp hev with rfl
      exact ⟨Nat.le_refl _, fun hn => ⟨hn, hR⟩⟩
  | succ t ih =>
    intro v R d ev hev
    simp only [flood] at hev
    split at hev
    · simp at hev
    · next hR =>
      rcases List.mem_cons.mp hev with rfl | hrest
      · exact ⟨by omega, fun hn => ⟨hn, hR⟩⟩
      · rcases List.mem_flatMap.mp hrest with ⟨a, _, hev'⟩
        obtain ⟨h1, h2⟩ := ih (v ++ [R]) a (d + 1) ev hev'
        refine ⟨by omega, fun hn => h2 ?_⟩
        rw [List.nodup_append]
        refine ⟨hn, List.nodup_singleton R, fun x hx hxR => ?_⟩
        rw [List.mem_singleton] at hxR
        exact hR (hxR ▸ hx)

/-- C3 (amended): a discovery initiated with ttl = k is forwarded over
at most k hops — every processing event sits at depth at most 1 + k
wire transmissions (the initial emission plus at most k forwardings,
each of which decrements the ttl) — and loop suppression is per
forwarding path: every processed envelope carries a duplicate-free
visited list that does not contain its processor, so no single
forwarding chain visits a node twice.  (The stronger global claim that
no node ever processes the same (origin, envelope_id) twice fails; see
the counterexample.) -/
theorem discovery_ttl_hops (g : Nat → List Nat) (A k : Nat)
    (ev : Nat × Nat × List Nat) (hev : ev ∈ initiateDiscovery g A k) :
    ev.1 ≤ 1 + k ∧ ev.2.2.Nodup ∧ ev.2.1 ∉ ev.2.2 := by
  rcases List.mem_flatMap.mp hev with ⟨b, _, hev'⟩
  obtain ⟨h1, h2⟩ := flood_mem_invariant g k [A] b 1 ev hev'
  exact ⟨by omega, h2 (List.nodup_singleton A)⟩

/-- C3 witness: in the diamond topology the event of node 1 processing
the envelope at depth 1 with visited list [0] satisfies the hop bound
and the path-uniqueness invariant. -/
theorem discovery_ttl_hops_witness :
    (1 : Nat) ≤ 1 + 10 ∧ ([0] : List Nat).Nodup ∧ (1 : Nat) ∉ ([0] : List Nat) :=
  discovery_ttl_hops gDiamond 0 10 (1, 1, [0]) (by decide)

/-- C3 counterexample: the claim that no node processes the same
(origin, envelope_id) discovery envelope twice is false under the
spec's own forwarding rules.  In the diamond topology 0 → 1 → {2, 3}
→ 4, a single discovery initiated by node 0 with ttl = 10 (hence a
single origin and a single envelope id for the whole flood) is
processed by node 4 twice, once via node 2 and once via node 3 —
node 4 appears in neither copy's visited list, so the visited-based
loop suppression does not drop either copy. -/
theorem discovery_dedup_cex :
    ((initiateDiscovery gDiamond 0 10).filter (fun ev => ev.2.1 == 4)).length = 2 := by
  decide

theorem applyEdgeOp_nodup (m : Nat) (edges : List (List Char)) (op : EdgeOp)
    (h : edges.Nodup) : (applyEdgeOp m edges op).Nodup := by
  cases op with
  | inbound a =>
    simp only [applyEdgeOp, handleInbound]
    split
    · exact h
    · split
      · exact h
      · next h1 _ =>
        rw [List.nodup_append]
        refine ⟨h, List.nodup_singleton a, fun x hx hxa => ?_⟩
        rw [List.mem_singleton] at hxa
        exact h1 (hxa ▸ hx)
  | outbound a =>
    simp only [applyEdgeOp]
    split
    · exact h
    · next h1 =>
      rw [List.nodup_append]
      have ha : a ∉ edges := fun hm => h1 (Or.inl hm)
      refine ⟨h, List.nodup_singleton a, fun x hx hxa => ?_⟩
      rw [List.mem_singleton] at hxa
      exact ha (hxa ▸ hx)
  | disconnect a =>
    exact h.erase a

theorem runEdgeOps_nodup (m : Nat) (ops : List EdgeOp) : (runEdgeOps m ops).Nodup := by
  unfold runEdgeOps
  have h : ∀ (l : List EdgeOp) (edges : List (List Char)), edges.Nodup →
      (l.foldl (applyEdgeOp m) edges).Nodup := by
    intro l
    induction l with
    | nil => exact fun edges h => h
    | cons op rest ih =>
      intro edges h
      exact ih _ (applyEdgeOp_nodup m edges op h)
  exact h ops [] List.nodup_nil

theorem nodup_filter_eq_length_le_one {l : List (List Char)} (h : l.Nodup)
    (a : List Char) : (l.filter (fun e => e = a)).length ≤ 1 := by
  have hnd : (l.filter (fun e => e = a)).Nodup := h.filter _
  match hf : l.filter (fun e => e = a) with
  | [] => simp
  | [_] => simp
  | x :: y :: rest =>
    exfalso
    rw [hf] at hnd
    have hx : x = a := by
      have : x ∈ l.filter (fun e => e = a) := by
        rw [hf]; exact List.mem_cons_self x (y :: rest)
      simpa using (List.mem_filter.mp this).2
    have hy : y = a := by
      have : y ∈ l.filter (fun e => e = a) := by
        rw [hf]; exact List.mem_cons_of_mem x (List.mem_cons_self y rest)
      simpa using (List.mem_filter.mp this).2
    exact (List.nodup_cons.mp hnd).1 (by rw [hx, hy]; exact List.mem_cons_self a rest)

/-- C4: from the empty initial state, every sequence of edge operations
leaves at most one edge whose peer address equals a in the active edge
set, and a duplicate inbound connection from an already-known address
is closed rather than added as a second edge (the edge set is returned
unchanged). -/
theorem no_duplicate_edges (m : Nat) (ops : List EdgeOp) (a : List Char) :
    ((runEdgeOps m ops).filter (fun e => e = a)).length ≤ 1 ∧
      (∀ edges : List (List Char), a ∈ edges →
        handleInbound m edges a = (edges, .duplicateClosed)) := by
  constructor
  · exact nodup_filter_eq_length_le_one (runEdgeOps_nodup m ops) a
  · intro edges h
    simp [handleInbound, h]

/-- C4 witness: two inbound offers from the same address leave a single
edge, and the duplicate offer is answered by closing it. -/
theorem no_duplicate_edges_witness :
    ((runEdgeOps 5 [EdgeOp.inbound ['a'], EdgeOp.inbound ['a']]).filter
        (fun e => e = ['a'])).length ≤ 1 ∧
      handleInbound 5 [['a']] ['a'] = ([['a']], .duplicateClosed) :=
  ⟨(no_duplicate_edges 5 [EdgeOp.inbound ['a'], EdgeOp.inbound ['a']] ['a']).1,
   (no_duplicate_edges 5 [EdgeOp.inbound ['a'], EdgeOp.inbound ['a']] ['a']).2
     [['a']] (by decide)⟩

set_option maxRecDepth 10000 in
/-- C5: when the bounded delivery queue is full (its length equals the
capacity), one more locally subscribed topic_message drops the oldest
queued message and increments the overflow counter by exactly one (the
transition is total, so the node keeps running); concretely, with
capacity 4 and no reader, pushing the 100 messages 1..100 leaves the
overflow counter at 96 and exactly the last four messages 97, 98, 99,
100 in push order for a subsequently attached reader. -/
theorem queue_overflow_lossy :
    (∀ (cap : Nat) (s : StreamState Nat) (m : Nat), s.queue.length = cap →
        pushMessage cap s m = ⟨s.queue.drop 1 ++ [m], s.overflow + 1⟩) ∧
      pushAll 4 ⟨[], 0⟩ ((List.range 100).map (fun n => n + 1)) =
        ⟨[97, 98, 99, 100], 96⟩ := by
  constructor
  · intro cap s m h
    unfold pushMessage
    rw [h]
    simp
  · decide

/-- C5 witness: pushing into the full queue [1, 2, 3, 4] at capacity 4
drops the oldest message 1 and increments the overflow counter. -/
theorem queue_overflow_lossy_witness :
    pushMessage 4 (⟨[1, 2, 3, 4], 0⟩ : StreamState Nat) 5 = ⟨[2, 3, 4, 5], 1⟩ := by
  simpa using queue_overflow_lossy.1 4 ⟨[1, 2, 3, 4], 0⟩ 5 rfl

theorem flatten_chunksAux (c : Nat) :
    ∀ (l cur : List Nat), (chunksAux c cur l).flatten = cur.reverse ++ l := by
  intro l
  induction l with
  | nil =>
    intro cur
    simp only [chunksAux]
    split
    · next h => simp [h]
    · simp
  | cons x xs ih =>
    intro cur
    simp only [chunksAux]
    split
    · simp [ih []]
    · simpa using ih (x :: cur)

theorem chunks_flatten (c : Nat) (f : List Nat) : reassemble (chunksOf c f) = f := by
  unfold reassemble chunksOf
  simpa using flatten_chunksAux c f []

/-- C6: for every file F split into chunks, the reassembled file equals
F, so its SHA-256 (modelled as an arbitrary function of the byte
string) equals that of F; and when a .part file holding the first n
chunks is on disk and the receiver answers file_resume_from with index
n, the sender's resumed transfer from chunk n completes to exactly F,
so the completed file's SHA-256 still equals that of F. -/
theorem file_transfer_integrity (c n : Nat) (f partBytes : List Nat)
    (sha : List Nat → Nat) :
    (reassemble (chunksOf c f) = f ∧ sha (reassemble (chunksOf c f)) = sha f) ∧
      (partBytes = reassemble ((chunksOf c f).take n) →
        resumedFile c n f partBytes = f ∧
          sha (resumedFile c n f partBytes) = sha f) := by
  have hfull := chunks_flatten c f
  refine ⟨⟨hfull, by rw [hfull]⟩, fun hpart => ?_⟩
  have hres : resumedFile c n f partBytes = f := by
    unfold resumedFile
    rw [hpart]
    unfold reassemble
    rw [← List.flatten_append, List.take_append_drop]
    exact hfull
  exact ⟨hres, by rw [hres]⟩

/-- C6 witness: the file [1, 2, 3, 4, 5] chunked at size 2 reassembles
to itself, and resuming after a .part holding the first chunk [1, 2]
completes to the same bytes, with equal checksums (sum model). -/
theorem file_transfer_integrity_witness :
    (reassemble (chunksOf 2 [1, 2, 3, 4, 5]) = [1, 2, 3, 4, 5] ∧
        List.sum (reassemble (chunksOf 2 [1, 2, 3, 4, 5])) = List.sum [1, 2, 3, 4, 5]) ∧
      (resumedFile 2 1 [1, 2, 3, 4, 5] [1, 2] = [1, 2, 3, 4, 5] ∧
        List.sum (resumedFile 2 1 [1, 2, 3, 4, 5] [1, 2]) = List.sum [1, 2, 3, 4, 5]) :=
  ⟨(file_transfer_integrity 2 1 [1, 2, 3, 4, 5] [1, 2] List.sum).1,
   (file_transfer_integrity 2 1 [1, 2, 3, 4, 5] [1, 2] List.sum).2 (by decide)⟩

/-- C7: a new inbound connection offered while the node already holds
at least max_connections edges is answered with a too_many_edges reply
and the newly offered socket is closed, while the edge set — and hence
every existing edge — is left unchanged. -/
theorem too_many_edges_refusal (m : Nat) (edges : List (List Char)) (a : List Char)
    (hnew : a ∉ edges) (hfull : m ≤ edges.length) :
    handleInbound m edges a = (edges, .tooManyEdges) ∧
      closesNewSocket .tooManyEdges = true := by
  simp [handleInbound, hnew, hfull, closesNewSocket]

/-- C7 witness: a node at its cap of 2 edges refuses the fresh address
['c'] with too_many_edges, closing the new socket and keeping its two
edges. -/
theorem too_many_edges_refusal_witness :
    handleInbound 2 [['a'], ['b']] ['c'] = ([['a'], ['b']], .tooManyEdges) ∧
      closesNewSocket .tooManyEdges = true :=
  too_many_edges_refusal 2 [['a'], ['b']] ['c'] (by decide) (by decide)

/-- C8: per-edge delivery never reorders — if the messages pushed on
one edge carry strictly increasing sequence numbers and the delivered
list is a sublist of the pushed list (losses allowed), the delivered
sequence numbers are still strictly increasing, so of any two messages
pushed m1 before m2 that are both delivered, m1 is delivered first; and
across different edges no order is guaranteed: both interleavings of
two single-message edge streams are admissible delivery schedules. -/
theorem per_edge_order :
    (∀ pushed delivered : List (Nat × Nat), deliveredFrom pushed delivered →
        orderedBySeq pushed → orderedBySeq delivered) ∧
      (∀ m1 m2 : Nat × Nat, interleavings [m1] [m2] = [[m1, m2], [m2, m1]]) := by
  constructor
  · intro pushed delivered hsub hord
    exact List.Pairwise.sublist hsub hord
  · intro m1 m2
    simp [interleavings]

/-- C8 witness: from the pushed stream [(0, 0), (0, 1)] the lossy
delivery [(0, 1)] is still in push order, and the two single-message
streams of edges 0 and 1 admit both delivery orders. -/
theorem per_edge_order_witness :
    orderedBySeq [((0 : Nat), (1 : Nat))] ∧
      interleavings [(0, 0)] [(1, 0)] = [[(0, 0), (1, 0)], [(1, 0), (0, 0)]] :=
  ⟨per_edge_order.1 [(0, 0), (0, 1)] [(0, 1)]
      (by unfold deliveredFrom; decide) (by unfold orderedBySeq; decide),
   per_edge_order.2 (0, 0) (1, 0)⟩

/-- C9: a leading '*' in a user-facing connect address marks the
connection as paired-requested — the flag is set and the '*' stripped,
and the resulting pairing covers exactly the overlapping topics — while
the same address without the '*' connects with the flag unset and no
topics paired. -/
theorem star_address_pairing (addr : List Char) (mySubs peerSubs : List (List Char)) :
    parseConnect ('*' :: addr) = (true, addr) ∧
      connectRequest ('*' :: addr) mySubs peerSubs =
        (true, mySubs.filter (fun t => t ∈ peerSubs)) ∧
      (addr.head? ≠ some '*' →
        parseConnect addr = (false, addr) ∧
          connectRequest addr mySubs peerSubs = (false, [])) := by
  refine ⟨rfl, by simp [connectRequest, parseConnect, pairedTopics], fun h => ?_⟩
  have hplain : parseConnect addr = (false, addr) := by
    cases addr with
    | nil => rfl
    | cons c rest =>
      have hc : c ≠ '*' := by simpa using h
      unfold parseConnect
      split
      · next heq =>
        rw [List.cons.injEq] at heq
        exact absurd heq.1 hc
      · rfl
  exact ⟨hplain, by simp [connectRequest, hplain, pairedTopics]⟩

/-- C9 witness: connecting to '*a' requests pairing on the overlapping
topic, while plain 'a' requests none. -/
theorem star_address_pairing_witness :
    parseConnect ['*', 'a'] = (true, ['a']) ∧
      connectRequest ['*', 'a'] [['t']] [['t']] = (true, [['t']]) ∧
      (parseConnect ['a'] = (false, ['a']) ∧
        connectRequest ['a'] [['t']] [['t']] = (false, [])) := by
  obtain ⟨h1, h2, h3⟩ := star_address_pairing ['a'] [['t']] [['t']]
  exact ⟨h1, by simpa using h2, h3 (by decide)⟩

/-- C10: against a ChaskiRemote server started with an explicit
available-modules list, requesting a proxy for a module in the list
returns a ChaskiProxy bound to that module with no failure log, and
requesting one not in the list returns no proxy and reports the failure
with the log line 'Module <m> not found in the conected edges'; the
lookup is a total function, so no exception is raised either way. -/
theorem proxy_module_lookup (srv : RemoteServer) (m : List Char) :
    (m ∈ srv.available → proxyLookup srv m = (some ⟨m⟩, none)) ∧
      (m ∉ srv.available → proxyLookup srv m = (none, some (moduleNotFoundMsg m))) := by
  constructor <;> intro h <;> simp [proxyLookup, h]

/-- C10 witness: a server restricted to module 'np' serves a proxy for
'np' and reports 's' as not found without raising. -/
theorem proxy_module_lookup_witness :
    proxyLookup ⟨[['n', 'p']]⟩ ['n', 'p'] = (some ⟨['n', 'p']⟩, none) ∧
      proxyLookup ⟨[['n', 'p']]⟩ ['s'] = (none, some (moduleNotFoundMsg ['s'])) :=
  ⟨(proxy_module_lookup ⟨[['n', 'p']]⟩ ['n', 'p']).1 (by decide),
   (proxy_module_lookup ⟨[['n', 'p']]⟩ ['s']).2 (by decide)⟩

end Chaski
